import Mathlib

/-!
Verification of the perlin-core posting-list storage pipeline.

This file shallowly embeds the Rust sources of the repository:

* `src/utils/ring_buffer.rs`   — `RingBuffer` / `BiasedRingBuffer`
* `src/compressor/naive_compressor.rs` — `NaiveCompressor`
* `src/page_manager/page.rs`   — `PageId`, `UnfullPage`, `Pages`
* `src/index/listing.rs`       — `Listing` (`add`, `commit`, `ship`,
  `compress_and_ship`, `unravel_unfull`)
* `src/index/boolean_index/posting.rs` — `Posting` comparison impls
* `src/index/vocabulary.rs`    — `Vocabulary::get_or_add` on a hash map
* `src/index/storage/fs_storage.rs` — `FsStorage::{get, store}`
* `src/index/boolean_index/mod.rs`  — `BooleanIndex::load_vocabulary`

Machine integers are embedded as `Nat` with explicit `% 2^32` where u32
overflow could matter.  Blocks (fixed `[u8; BLOCKSIZE]` arrays, written and
read exclusively through 4-byte `u32` transmutes in the naive compressor)
are embedded at `u32` granularity as lists of `BLOCKSIZE / 4` values.  The
ring buffer (a fixed 64-slot circular array with `start`/`count` cursors,
whose uninitialised slots are never read and whose `push_back` carries a
`debug_assert!(count < SIZE)` precondition) is embedded as the FIFO list of
its live elements.

Parts of the repository that the sources under `src/` only reference but do
not contain (`page_manager/mod.rs` with `BLOCKSIZE`, `Block`, `BlockId`,
`RamPageCache`, `BlockIter`; `index/posting.rs` with the u32 `DocId`,
`Posting` and `PostingDecoder`; the `Baseable` impl in `utils/mod.rs`; the
vbyte codec) are modelled from the specification; each such definition says
so in its doc comment.
-/

set_option maxRecDepth 10000

namespace Perlin

/-- Modelled from the spec: `BLOCKSIZE` lives in the missing
`page_manager/mod.rs`; §3 fixes B = 64 bytes in the reference. -/
def BLOCKSIZE : Nat := 64

/-- From `page_manager/page.rs`: `pub const PAGESIZE: usize = 64;`. -/
def PAGESIZE : Nat := 64

/-- The u32 modulus. -/
def U32 : Nat := 2 ^ 32

/-- Modelled from the spec: `DocId::none()` lives in the missing
`index/posting.rs`; §4.5 fixes the sentinel as the all-ones u32. -/
def DOCID_NONE : Nat := U32 - 1

/-- Doc ids of the u32 listing generation.  The missing `index/posting.rs`
wraps a `DocId(u32)` in a one-field `Posting(DocId)`; both newtypes are
flattened to `Nat` here (the spec, §3, gives the posting of this codec a
doc id and nothing else). -/
abbrev CorePosting := Nat

/-- Modelled from the spec: `Baseable::add_base` on doc ids (§4.3,
`push_back_biased(p)` stores `p + base`), with u32 wrap-around. -/
def add_base (a b : Nat) : Nat := (a + b) % U32

/-- Modelled from the spec: `Baseable::sub_base` on doc ids (§4.3,
`pop_front_biased()` returns `p - base`), with u32 wrap-around. -/
def sub_base (a b : Nat) : Nat := (a + (U32 - b % U32)) % U32

/-- From `utils/ring_buffer.rs`: `BiasedRingBuffer<Posting>`.  The inner
`RingBuffer` (64-slot circular array, `start`/`count` cursors) is embedded
as the list of its live elements in FIFO order; `base` is the bias
posting. -/
structure BiasedRingBuffer where
  elems : List Nat
  base : Nat
  deriving Repr, DecidableEq

namespace BiasedRingBuffer

/-- `BiasedRingBuffer::new` (base is `T::default()`, i.e. doc id 0). -/
def new : BiasedRingBuffer := ⟨[], 0⟩

/-- `RingBuffer::push_back` (source precondition `count < SIZE`,
`debug_assert!`ed; every use in this development stays far below 64). -/
def push_back (b : BiasedRingBuffer) (x : Nat) : BiasedRingBuffer :=
  { b with elems := b.elems ++ [x] }

/-- `RingBuffer::pop_front`. -/
def pop_front (b : BiasedRingBuffer) : Option Nat × BiasedRingBuffer :=
  match b.elems with
  | [] => (none, b)
  | x :: rest => (some x, { b with elems := rest })

/-- `RingBuffer::peek_front`. -/
def peek_front (b : BiasedRingBuffer) : Option Nat :=
  b.elems.head?

/-- `RingBuffer::count`. -/
def count (b : BiasedRingBuffer) : Nat := b.elems.length

/-- `RingBuffer::is_empty`. -/
def is_empty (b : BiasedRingBuffer) : Bool := b.count == 0

/-- `BiasedRingBuffer::set_base`. -/
def set_base (b : BiasedRingBuffer) (x : Nat) : BiasedRingBuffer :=
  { b with base := x }

/-- `BiasedRingBuffer::pop_front_biased`: pop, then subtract the base. -/
def pop_front_biased (b : BiasedRingBuffer) : Option Nat × BiasedRingBuffer :=
  match b.pop_front with
  | (none, b) => (none, b)
  | (some x, b) => (some (sub_base x b.base), b)

/-- `BiasedRingBuffer::push_back_biased`: add the base, then push. -/
def push_back_biased (b : BiasedRingBuffer) (x : Nat) : BiasedRingBuffer :=
  b.push_back (add_base x b.base)

end BiasedRingBuffer

/-- A block at u32 granularity: the `BLOCKSIZE / 4` four-byte slots of the
`[u8; BLOCKSIZE]` array, each holding one (biased) doc id. -/
abbrev Block := List Nat

namespace NaiveCompressor

/-- The `for i in 0..BLOCKSIZE / 4` loop body of
`NaiveCompressor::compress` from `compressor/naive_compressor.rs`: pop `n`
biased postings into block slots.  The source `unwrap`s each pop; the loop
only runs under the guard `count >= BLOCKSIZE / 4`, so the pop never fails
there (an impossible `none` is dropped here). -/
def pop_slots : Nat → BiasedRingBuffer → List Nat × BiasedRingBuffer
  | 0, b => ([], b)
  | n + 1, b =>
    match b.pop_front_biased with
    | (none, b) => ([], b)
    | (some x, b) =>
      let (xs, b) := pop_slots n b
      (x :: xs, b)

/-- `NaiveCompressor::compress`: if the buffer holds at least
`BLOCKSIZE / 4` postings, drain exactly that many (bias subtracted) into a
block; otherwise return `none` and leave the buffer untouched. -/
def compress (data : BiasedRingBuffer) : Option Block × BiasedRingBuffer :=
  if BLOCKSIZE / 4 ≤ data.count then
    let (xs, data) := pop_slots (BLOCKSIZE / 4) data
    (some xs, data)
  else
    (none, data)

/-- The `for i in 0..BLOCKSIZE / 4` loop of
`NaiveCompressor::force_compress`: pop `n` biased postings, writing the
`DocId::none()` sentinel into every slot the buffer can no longer fill. -/
def force_pop_slots : Nat → BiasedRingBuffer → List Nat × BiasedRingBuffer
  | 0, b => ([], b)
  | n + 1, b =>
    match b.pop_front_biased with
    | (none, b) =>
      let (xs, b) := force_pop_slots n b
      (DOCID_NONE :: xs, b)
    | (some x, b) =>
      let (xs, b) := force_pop_slots n b
      (x :: xs, b)

/-- `NaiveCompressor::force_compress`: drain whatever is available and pad
the rest of the block with the sentinel. -/
def force_compress (data : BiasedRingBuffer) : Block × BiasedRingBuffer :=
  force_pop_slots (BLOCKSIZE / 4) data

/-- `NaiveCompressor::decompress`: walk the block's u32 slots, pushing each
doc id (with the target buffer's base added back) until the sentinel or
the end of the block. -/
def decompress (data : Block) (target : BiasedRingBuffer) : BiasedRingBuffer :=
  match data with
  | [] => target
  | num :: rest =>
    if num ≠ DOCID_NONE then
      decompress rest (target.push_back_biased num)
    else
      target

end NaiveCompressor

/-- From `page_manager/page.rs`: `PageId(pub u64)`, flattened to `Nat`. -/
abbrev PageId := Nat

/-- Modelled from the spec: `BlockId` lives in the missing
`page_manager/mod.rs`; §3 makes it the index of a block within a page
(`0 ≤ BlockId < P`) with `first()` and `last()` sentinels and an
increment, as used by `listing.rs`.  Flattened to `Nat`. -/
abbrev BlockId := Nat

/-- Modelled from the spec: `BlockId::first()` is the first slot of a
page. -/
def BlockId.first : BlockId := 0

/-- Modelled from the spec: `BlockId::last()` is the last slot of a page
(`P - 1`). -/
def BlockId.last : BlockId := PAGESIZE - 1

/-- Modelled from the spec: `BlockId::inc` advances the slot index; since
`0 ≤ BlockId < P` (§3) and `ship` allocates a fresh page exactly when the
counter equals `first()` (§4.6), the increment wraps from `last()` back to
`first()`. -/
def BlockId.inc (b : BlockId) : BlockId := (b + 1) % PAGESIZE

/-- From `page_manager/page.rs`: `UnfullPage(pub PageId, BlockId, BlockId)`
with accessors `page_id`, `from`, `to`; blocks `[from, to)` of that page
belong to the owning listing. -/
structure UnfullPage where
  page_id : PageId
  fromBlock : BlockId
  toBlock : BlockId
  deriving Repr, DecidableEq

/-- From `page_manager/page.rs`: `Pages(pub Vec<PageId>, pub
Option<UnfullPage>)`. -/
structure Pages where
  full : List PageId
  unfullDesc : Option UnfullPage
  deriving Repr, DecidableEq

namespace Pages

/-- `Pages::new`. -/
def new : Pages := ⟨[], none⟩

/-- `Pages::len`: full page ids plus one for a present unfull
descriptor. -/
def len (p : Pages) : Nat :=
  p.full.length + match p.unfullDesc with | some _ => 1 | none => 0

/-- `Pages::get`: the page id at position `ptr`; full pages first, then
the unfull page's id. -/
def get (p : Pages) (ptr : Nat) : Option PageId :=
  if ptr < p.full.length then
    p.full.get? ptr
  else if p.unfullDesc.isSome ∧ ptr < p.len then
    p.unfullDesc.map UnfullPage.page_id
  else
    none

/-- `Pages::push`. -/
def push (p : Pages) (page_id : PageId) : Pages :=
  { p with full := p.full ++ [page_id] }

/-- `Pages::add_unfull`. -/
def add_unfull (p : Pages) (u : UnfullPage) : Pages :=
  { p with unfullDesc := some u }

/-- `Pages::take_unfull`. -/
def take_unfull (p : Pages) : Option UnfullPage × Pages :=
  (p.unfullDesc, { p with unfullDesc := none })

/-- `Pages::unfull`. -/
def unfull (p : Pages) : Option UnfullPage := p.unfullDesc

end Pages

/-- Modelled from the spec: the `RamPageCache` of the missing
`page_manager/mod.rs` (§4.2).  Pages under fill are kept in memory; page
ids are dense, assigned in allocation order; a page is the ordered list of
blocks written to its slots so far. -/
structure RamPageCache where
  pages : List (List Block)
  deriving Repr, DecidableEq

namespace RamPageCache

/-- The empty cache. -/
def new : RamPageCache := ⟨[]⟩

/-- The blocks currently stored on page `pid`. -/
def pageAt (c : RamPageCache) (pid : PageId) : List Block :=
  c.pages.getD pid []

/-- Modelled from the spec: `store_block(block) -> PageId` allocates a
fresh page id in the cache and puts `block` at slot 0 (§4.2). -/
def store_block (c : RamPageCache) (b : Block) : PageId × RamPageCache :=
  (c.pages.length, ⟨c.pages ++ [[b]]⟩)

/-- Write a block into slot `i` of a page's block list (listings fill
slots consecutively, so the write is always at the current end; the
general case pads with empty blocks). -/
def writeSlot (p : List Block) (i : Nat) (b : Block) : List Block :=
  if i < p.length then p.set i b
  else p ++ List.replicate (i - p.length) [] ++ [b]

/-- Modelled from the spec: `store_in_place(page_id, BlockId, block)`
extends an active-fill page (§4.2). -/
def store_in_place (c : RamPageCache) (pid : PageId) (bid : BlockId)
    (b : Block) : RamPageCache :=
  ⟨c.pages.set pid (writeSlot (c.pageAt pid) bid b)⟩

/-- Modelled from the spec: `flush_page(page_id) -> PageId` persists a
fully-used page and returns its final backing id (§4.2); in this model the
cache keeps the page readable under the same dense id. -/
def flush_page (_c : RamPageCache) (pid : PageId) : PageId := pid

/-- Modelled from the spec: `flush_unfull(page_id, next_block_id) ->
UnfullPage` persists a partially-used page and returns its descriptor
(§4.2); the page was filled from slot 0 up to (excluding)
`next_block_id`. -/
def flush_unfull (_c : RamPageCache) (pid : PageId) (next : BlockId) :
    UnfullPage :=
  ⟨pid, BlockId.first, next⟩

/-- Modelled from the spec: `delete_unfull(page_id)` drops the cached
descriptor and is a no-op on the stored page bytes (§4.2); this model
keeps no descriptor bookkeeping, so it is the identity. -/
def delete_unfull (c : RamPageCache) (_pid : PageId) : RamPageCache := c

end RamPageCache

/-- Modelled from the spec: the `BlockIter` of the missing
`page_manager/mod.rs` walks all blocks of a listing's pages in order —
every slot of each full page, then blocks `[from, to)` of the unfull page
(§3, §4.2). -/
def blockSeq (c : RamPageCache) (p : Pages) : List Block :=
  (p.full.map fun pid => c.pageAt pid).foldr (· ++ ·)
    (match p.unfullDesc with
     | some u => ((c.pageAt u.page_id).drop u.fromBlock).take
         (u.toBlock - u.fromBlock)
     | none => [])

/-- The postings decoded from one block under the naive codec: the u32
slots up to the sentinel or the block end (§4.5 `decompress`). -/
def decodeBlock (b : Block) : List Nat :=
  match b with
  | [] => []
  | num :: rest => if num ≠ DOCID_NONE then num :: decodeBlock rest else []

/-- Modelled from the spec: the forward pass of the `PostingDecoder` of
the missing `index/posting.rs` (§4.8), matching the naive codec (§4.5):
block `k` of the iterator pairs with `block_biases[k]` (§3: one bias per
shipped block, the first doc id encoded inside it); each stored slot value
is the doc id minus that bias, so decoding adds the bias back; the decoder
yields at most `total_postings_count` postings. -/
def decodePostings (blocks : List Block) (biases : List Nat) (len : Nat) :
    List Nat :=
  ((blocks.zip biases).map fun bb =>
      (decodeBlock bb.1).map fun v => add_base v bb.2).foldr (· ++ ·) []
    |>.take len

/-- From `index/listing.rs`: the `Listing` struct. `size` is the
`total_postings_count` of the spec. -/
structure Listing where
  pages : Pages
  current_page : Option PageId
  block_biases : List Nat
  block_counter : BlockId
  block_start : Nat
  block_end : Nat
  posting_buffer : BiasedRingBuffer
  size : Nat
  deriving Repr, DecidableEq

namespace Listing

/-- `Listing::new`. -/
def new : Listing :=
  { pages := Pages.new
    current_page := none
    block_biases := []
    block_counter := BlockId.first
    posting_buffer := BiasedRingBuffer.new
    block_start := 0
    block_end := 0
    size := 0 }

/-- `Listing::ship`: place the block on the current page (allocating a
fresh one at slot 0), record the bias of the block just stored, flush the
page when its last slot was written, advance the block counter, and
re-anchor `block_start` and the buffer base for the next block. -/
def ship (s : Listing) (c : RamPageCache) (block : Block) :
    Listing × RamPageCache :=
  let (cur, c) :=
    if s.block_counter = BlockId.first then
      let (pid, c) := c.store_block block
      (some pid, c)
    else
      (s.current_page, c.store_in_place (s.current_page.getD 0)
        s.block_counter block)
  let s := { s with current_page := cur }
  let s := { s with block_biases := s.block_biases ++ [s.block_start] }
  let s :=
    if s.block_counter = BlockId.last then
      { s with
          pages := s.pages.push (c.flush_page (s.current_page.getD 0))
          current_page := none }
    else s
  let s := { s with block_counter := s.block_counter.inc }
  let s :=
    { s with
        block_start :=
          match s.posting_buffer.peek_front with
          | some p => p
          | none => s.block_end }
  let s := { s with posting_buffer := s.posting_buffer.set_base s.block_start }
  (s, c)

/-- The `while let Some(block) = compress { ship }` loop of
`Listing::compress_and_ship`.  `fuel` bounds the iteration count; each
successful `compress` removes `BLOCKSIZE / 4 ≥ 1` postings from the
buffer, so the initial buffer count is enough fuel for the source loop to
run to completion. -/
def shipWhile : Nat → Listing → RamPageCache → Listing × RamPageCache
  | 0, s, c => (s, c)
  | fuel + 1, s, c =>
    match NaiveCompressor.compress s.posting_buffer with
    | (none, buf) => ({ s with posting_buffer := buf }, c)
    | (some block, buf) =>
      let (s, c) := ship { s with posting_buffer := buf } c block
      shipWhile fuel s c

/-- `Listing::compress_and_ship`: ship full blocks while the compressor
yields them; under `force`, also ship one padded block if postings
remain. -/
def compress_and_ship (s : Listing) (c : RamPageCache) (force : Bool) :
    Listing × RamPageCache :=
  let (s, c) := shipWhile s.posting_buffer.count s c
  if force ∧ s.posting_buffer.count > 0 then
    let (block, buf) := NaiveCompressor.force_compress s.posting_buffer
    ship { s with posting_buffer := buf } c block
  else
    (s, c)

/-- The `for (i, posting) in postings.iter().enumerate()` loop of
`Listing::add` followed by the trailing `compress_and_ship`: skip a
posting equal to `block_end` when the buffer is non-empty, otherwise count
it, record it as the new `block_end`, push it (unbiased), and attempt a
compress-and-ship every 16 postings. -/
def addLoop (s : Listing) (c : RamPageCache) :
    List CorePosting → Nat → Listing × RamPageCache
  | [], _ => compress_and_ship s c false
  | p :: rest, i =>
    if ¬s.posting_buffer.is_empty ∧ s.block_end = p then
      addLoop s c rest (i + 1)
    else
      let s := { s with size := s.size + 1, block_end := p }
      let s := { s with posting_buffer := s.posting_buffer.push_back p }
      let (s, c) :=
        if i % 16 = 0 then compress_and_ship s c false else (s, c)
      addLoop s c rest (i + 1)

/-- `Listing::unravel_unfull`: take the unfull page descriptor, decode the
postings of its blocks (re-basing the ring buffer to the bias of the first
of those blocks), reset the block counter and re-add the decoded postings,
then drop the unfull page from the cache.  The source asserts
`current_page.is_none()` on entry and re-adds through `self.add`; at that
point the descriptor has already been taken, so that call is exactly the
add loop embedded by `addLoop`. -/
def unravel_unfull (s : Listing) (c : RamPageCache) :
    Listing × RamPageCache :=
  match s.pages.take_unfull with
  | (none, _) => (s, c)
  | (some u, pages) =>
    let s := { s with pages := pages }
    let block_count := u.toBlock - u.fromBlock
    let blocks := blockSeq c ⟨[], some u⟩
    let s :=
      { s with
          posting_buffer := s.posting_buffer.set_base
            (s.block_biases.getD (s.block_biases.length - block_count) 0) }
    let postings := decodePostings blocks
      (s.block_biases.drop (s.block_biases.length - block_count)) s.size
    let s := { s with block_counter := BlockId.first }
    let (s, c) := addLoop s c postings 0
    (s, c.delete_unfull u.page_id)

/-- `Listing::add`: unravel a previously committed unfull page first, then
run the add loop over the incoming postings. -/
def add (s : Listing) (c : RamPageCache) (postings : List CorePosting) :
    Listing × RamPageCache :=
  if (s.pages.unfull).isSome then
    let (s, c) := unravel_unfull s c
    addLoop s c postings 0
  else
    addLoop s c postings 0

/-- `Listing::commit`: force-ship the remaining postings, then flush the
current page as unfull (recording its descriptor) and reset the block
counter. -/
def commit (s : Listing) (c : RamPageCache) : Listing × RamPageCache :=
  let (s, c) := compress_and_ship s c true
  match s.current_page with
  | some pid =>
    ({ s with
        current_page := none
        pages := s.pages.add_unfull (c.flush_unfull pid s.block_counter)
        block_counter := BlockId.first }, c)
  | none => (s, c)

/-- The posting sequence observed through `Listing::posting_decoder`: the
spec-modelled decoder run over the listing's block iterator, bias table
and total postings count. -/
def decoded (s : Listing) (c : RamPageCache) : List Nat :=
  decodePostings (blockSeq c s.pages) s.block_biases s.size

end Listing

/-- Run `add` on a listing-cache pair (plumbing helper). -/
def runAdd (sc : Listing × RamPageCache) (ps : List CorePosting) :
    Listing × RamPageCache :=
  Listing.add sc.1 sc.2 ps

/-- Run `commit` on a listing-cache pair (plumbing helper). -/
def runCommit (sc : Listing × RamPageCache) : Listing × RamPageCache :=
  Listing.commit sc.1 sc.2

/-- A fresh listing with a fresh cache. -/
def freshLC : Listing × RamPageCache := (Listing.new, RamPageCache.new)

/-- The decoded posting sequence of a listing-cache pair. -/
def decodedLC (sc : Listing × RamPageCache) : List Nat :=
  Listing.decoded sc.1 sc.2

namespace BIdx

/-- From `index/boolean_index/posting.rs`: `Posting(pub DocId, pub
Positions)` with `DocId = u64` and `Positions = Vec<u32>`. -/
structure Posting where
  doc_id : Nat
  positions : List Nat
  deriving Repr, DecidableEq

/-- The `PartialEq` impl for `Posting`:
`self.doc_id().eq(other.doc_id())`. -/
def postingEq (p q : Posting) : Bool := p.doc_id == q.doc_id

/-- The `Ord` impl for `Posting`: `self.doc_id().cmp(other.doc_id())`. -/
def postingCmp (p q : Posting) : Ordering := compare p.doc_id q.doc_id

/-- Rust `p <= q` as derived from the `PartialOrd` impl (which compares
doc ids): true when the comparison is `Less` or `Equal`. -/
def postingLe (p q : Posting) : Bool :=
  match postingCmp p q with
  | Ordering.lt => true
  | Ordering.eq => true
  | Ordering.gt => false

end BIdx

namespace Vocab

/-- From `index/vocabulary.rs`: the `HashMap<TTerm, TermId>` receiver of
`get_or_add`, embedded as the association list of its entries (`TermId`
flattened to `Nat`).  `get_or_add` only ever inserts an absent key, so the
keys stay distinct and the list length is the map's `len()`. -/
abbrev VMap (Term : Type) := List (Term × Nat)

/-- `HashMap::get` (also the trait's `get`). -/
def lookup {Term : Type} [DecidableEq Term] : VMap Term → Term → Option Nat
  | [], _ => none
  | (k, v) :: rest, t => if k = t then some v else lookup rest t

/-- `HashMap::contains_key`. -/
def contains_key {Term : Type} [DecidableEq Term] (m : VMap Term)
    (t : Term) : Bool :=
  (lookup m t).isSome

/-- `Vocabulary::get_or_add` for `HashMap`: an unseen term is inserted
with id `self.len()`; a seen term's stored id is returned
(`get(&term).unwrap()`, embedded with a default that the `contains_key`
guard makes unreachable). -/
def get_or_add {Term : Type} [DecidableEq Term] (m : VMap Term) (t : Term) :
    VMap Term × Nat :=
  if ¬contains_key m t then
    let t_id := m.length
    ((t, t_id) :: m, t_id)
  else
    (m, (lookup m t).getD 0)

end Vocab

namespace Fs

/-- From `index/storage/mod.rs` (declared there, used by
`fs_storage.rs`): the storage error kinds reachable from `get`/`store`.
The `WriteError` payload is dropped; in this pure model writes cannot
fail. -/
inductive StorageError where
  | KeyNotFound
  | WriteError
  deriving Repr, DecidableEq

/-- From `index/storage/fs_storage.rs`: `FsStorage` — the in-memory
`BTreeMap<u64, (u64, u32)>` of id to (offset, length), the bytes of
`data.bin`, the running `current_offset` bookkeeping field, and the
operating-system cursor of the `data` file handle.  `FsStorage::new`
opens `data.bin` with read+write+truncate (not append), so `store`'s
`write_all` lands at that cursor; and `get` reads through
`self.data.try_clone()`, whose handle shares the same cursor, so a read
moves the write position.  The `entries.bin` mirror file is write-only on
this path and is omitted. -/
structure FsStorage where
  entries : List (Nat × Nat × Nat)
  dataFile : List Nat
  current_offset : Nat
  cursor : Nat
  deriving Repr, DecidableEq

/-- `BTreeMap::get` on the entries map. -/
def lookupEntry : List (Nat × Nat × Nat) → Nat → Option (Nat × Nat)
  | [], _ => none
  | (k, off, len) :: rest, id =>
    if k = id then some (off, len) else lookupEntry rest id

/-- `BTreeMap::insert` on the entries map: replace the entry for an
existing key, otherwise add one. -/
def insertEntry : List (Nat × Nat × Nat) → Nat → Nat × Nat →
    List (Nat × Nat × Nat)
  | [], id, v => [(id, v.1, v.2)]
  | e :: rest, id, v =>
    if e.1 = id then (id, v.1, v.2) :: rest else e :: insertEntry rest id v

/-- `FsStorage::new`: empty map, truncated files, offset 0, cursor at the
start of the empty file. -/
def new : FsStorage := ⟨[], [], 0, 0⟩

/-- A file write at position `pos`: overwrite in place, extend at the end,
zero-fill any gap past the end (POSIX seek-past-EOF semantics; the traces
in this development never create a gap). -/
def writeAt (d : List Nat) (pos : Nat) (bytes : List Nat) : List Nat :=
  d.take pos ++ List.replicate (pos - d.length) 0 ++ bytes ++
    d.drop (pos + bytes.length)

variable {Item : Type}

/-- `FsStorage::get`: look the id up in the entries map (absent ids give
`KeyNotFound` with no file operation performed), then seek a
`try_clone` of the data handle to the entry's offset and `read_exact` its
`length` bytes.  The clone shares the underlying cursor with `self.data`,
so a successful read leaves the shared cursor at `offset + length` —
`get` takes `&self` but observably moves the next write's position,
hence the returned storage state.  `decode` abstracts `TItem::decode`;
the source `unwrap`s both the read (panics when the slice would run past
end of file) and the decode, both panics embedded as the inner `none`
(the post-panic cursor is unobservable and left at the seek target). -/
def get (decode : List Nat → Option Item) (s : FsStorage) (id : Nat) :
    Except StorageError (Option Item) × FsStorage :=
  match lookupEntry s.entries id with
  | none => (Except.error StorageError.KeyNotFound, s)
  | some (off, len) =>
    if off + len ≤ s.dataFile.length then
      (Except.ok (decode ((s.dataFile.drop off).take len)),
       { s with cursor := off + len })
    else
      (Except.ok none, { s with cursor := off })

/-- `FsStorage::store` (the all-writes-succeed path; the pure model has no
I/O failure): `write_all` the encoded bytes at the data file's shared
cursor (the source comment says `Append it to the file`, which holds only
while the cursor sits at end of file — `new` opens the file without
append mode), record the entry at `current_offset`, and advance both the
offset bookkeeping and the cursor. -/
def store (encode : Item → List Nat) (s : FsStorage) (id : Nat)
    (item : Item) : FsStorage :=
  let bytes := encode item
  { entries := insertEntry s.entries id (s.current_offset, bytes.length)
    dataFile := writeAt s.dataFile s.cursor bytes
    current_offset := s.current_offset + bytes.length
    cursor := s.cursor + bytes.length }

end Fs

/-- The one-byte item codec used in the storage scenarios. -/
def natEncode (n : Nat) : List Nat := [n]

/-- The trace `FsStorage::new(); store(0, 7); store(1, 8)`. -/
def fsAfterTwoStores : Fs.FsStorage :=
  Fs.store natEncode (Fs.store natEncode Fs.new 0 7) 1 8

/-- The same trace continued with `get(0); store(2, 9)`: the `get` moves
the shared cursor back to offset 1, where the following store writes. -/
def fsAfterInterleavedGet : Fs.FsStorage :=
  Fs.store natEncode (Fs.get List.head? fsAfterTwoStores 0).2 2 9

namespace BIndex

/-- From `index/boolean_index/mod.rs`: the `Error` kinds of
`BooleanIndex` (I/O and storage payloads dropped). -/
inductive IndexError where
  | PersistPathNotSpecified
  | EmptyPersistPath
  | CorruptedIndexFile
  | IOError
  | StorageFailure
  deriving Repr, DecidableEq

/-- Modelled from the spec: one step of the `VByteDecoder` used by
`load_vocabulary` (its source is not under `src/`); §6 fixes the wire
format as base-128 little-endian with the high bit set on the final byte
of each integer.  Returns the decoded value and the remaining bytes, or
`none` when the stream ends mid-integer. -/
def vbyteStep : List Nat → Nat → Nat → Option (Nat × List Nat)
  | [], _, _ => none
  | b :: rest, acc, digit =>
    if 128 ≤ b then some (acc + (b - 128) * 128 ^ digit, rest)
    else vbyteStep rest (acc + b * 128 ^ digit) (digit + 1)

/-- Decode one vbyte integer from the front of a byte stream. -/
def vbyteDecodeOne (bytes : List Nat) : Option (Nat × List Nat) :=
  vbyteStep bytes 0 0

/-- `BTreeMap::insert` keyed by term, as used to build the vocabulary. -/
def insertTerm {Term : Type} [DecidableEq Term] :
    List (Term × Nat) → Term → Nat → List (Term × Nat)
  | [], t, id => [(t, id)]
  | e :: rest, t, id =>
    if e.1 = t then (t, id) :: rest else e :: insertTerm rest t id

/-- The `while let Some(id) = decoder.next()` loop of
`BooleanIndex::load_vocabulary`: read a vbyte id, then a vbyte term
length; hand `decodeTerm` (abstracting `TTerm::decode`) the next
`term_len` bytes, of which it consumes its reported count (clamped to the
window, as the `take` adapter clamps it); insert the term on success and
silently skip the record on either decode failure (the source leaves
`TODO: Propagate Error` comments at both skips).  `fuel` bounds the
iteration count; every iteration consumes at least one byte, so the byte
count is enough fuel for the source loop to run to completion. -/
def loadVocabLoop {Term : Type} [DecidableEq Term]
    (decodeTerm : List Nat → Option Term × Nat) :
    Nat → List Nat → List (Term × Nat) → List (Term × Nat)
  | 0, _, result => result
  | fuel + 1, bytes, result =>
    match vbyteDecodeOne bytes with
    | none => result
    | some (id, rest) =>
      match vbyteDecodeOne rest with
      | none => loadVocabLoop decodeTerm fuel rest result
      | some (term_len, rest2) =>
        let window := rest2.take term_len
        let (term?, used) := decodeTerm window
        let remaining := rest2.drop (min used term_len)
        match term? with
        | some term =>
          loadVocabLoop decodeTerm fuel remaining (insertTerm result term id)
        | none => loadVocabLoop decodeTerm fuel remaining result

/-- `BooleanIndex::load_vocabulary` on the bytes of `vocabulary.bin`
(file opening and reading abstracted away): run the record loop and
return `Ok` with whatever map it produced. -/
def load_vocabulary {Term : Type} [DecidableEq Term]
    (decodeTerm : List Nat → Option Term × Nat) (bytes : List Nat) :
    Except IndexError (List (Term × Nat)) :=
  Except.ok (loadVocabLoop decodeTerm bytes.length bytes [])

/-- A concrete `TTerm::decode` for the corruption scenario: a one-byte
window decodes to that byte when it is below 128 and fails otherwise,
consuming the byte either way. -/
def byteTermDecode (window : List Nat) : Option Nat × Nat :=
  match window with
  | [b] => (if b < 128 then some b else none, 1)
  | _ => (none, 0)

end BIndex

/-! ## Theorems -/

/-- Draining `n` slots from a buffer of at least `n` postings pops exactly
the first `n` postings, bias subtracted, and leaves the rest. -/
theorem pop_slots_spec (n : Nat) (l : List Nat) (base : Nat)
    (h : n ≤ l.length) :
    NaiveCompressor.pop_slots n ⟨l, base⟩ =
      ((l.take n).map (fun v => sub_base v base), ⟨l.drop n, base⟩) := by
  induction n generalizing l with
  | zero => simp [NaiveCompressor.pop_slots]
  | succ n ih =>
    cases l with
    | nil => simp at h
    | cons x rest =>
      simp only [NaiveCompressor.pop_slots, BiasedRingBuffer.pop_front_biased,
        BiasedRingBuffer.pop_front, List.take_succ_cons, List.drop_succ_cons,
        List.map_cons]
      rw [ih rest (by simpa using h)]

/--
C4: `NaiveCompressor::compress` returns `none` and leaves the ring buffer
completely unchanged when the buffer holds fewer than `BLOCKSIZE / 4`
postings; with at least `BLOCKSIZE / 4` postings it returns a block
holding exactly the first `BLOCKSIZE / 4` postings (one u32 slot each, doc
id only, bias subtracted), and exactly those postings are removed from the
buffer.
-/
theorem compress_drains_exactly_one_block (data : BiasedRingBuffer) :
    NaiveCompressor.compress data =
      if BLOCKSIZE / 4 ≤ data.count then
        (some ((data.elems.take (BLOCKSIZE / 4)).map
            (fun v => sub_base v data.base)),
          ⟨data.elems.drop (BLOCKSIZE / 4), data.base⟩)
      else (none, data) := by
  obtain ⟨l, base⟩ := data
  unfold NaiveCompressor.compress
  split
  · next h =>
    rw [pop_slots_spec _ _ _ (by simpa [BiasedRingBuffer.count] using h)]
  · rfl

/-- Force-draining a buffer of at most `n` postings yields its postings in
order (bias subtracted) followed by sentinel padding, and empties it. -/
theorem force_pop_slots_spec (n : Nat) (l : List Nat) (base : Nat)
    (h : l.length ≤ n) :
    NaiveCompressor.force_pop_slots n ⟨l, base⟩ =
      (l.map (fun v => sub_base v base) ++
        List.replicate (n - l.length) DOCID_NONE, ⟨[], base⟩) := by
  induction n generalizing l with
  | zero =>
    cases l with
    | nil => simp [NaiveCompressor.force_pop_slots]
    | cons x rest => simp at h
  | succ n ih =>
    cases l with
    | nil =>
      simp only [NaiveCompressor.force_pop_slots,
        BiasedRingBuffer.pop_front_biased, BiasedRingBuffer.pop_front,
        List.map_nil, List.nil_append, List.length_nil, Nat.sub_zero]
      rw [ih [] (Nat.zero_le n)]
      simp [List.replicate_succ]
    | cons x rest =>
      simp only [NaiveCompressor.force_pop_slots,
        BiasedRingBuffer.pop_front_biased, BiasedRingBuffer.pop_front,
        List.map_cons, List.cons_append, List.length_cons]
      rw [ih rest (by simpa using h)]
      simp [Nat.succ_sub_succ]

/-- Decompressing a block whose prefix holds no sentinel appends exactly
that prefix (bias added back); the first sentinel stops the walk. -/
theorem decompress_append_sentinel (l : List Nat) (tail acc : List Nat)
    (b : Nat) (h : ∀ d ∈ l, d ≠ DOCID_NONE) :
    NaiveCompressor.decompress (l ++ DOCID_NONE :: tail) ⟨acc, b⟩ =
      ⟨acc ++ l.map (fun d => add_base d b), b⟩ := by
  induction l generalizing acc with
  | nil => simp [NaiveCompressor.decompress]
  | cons x xs ih =>
    have hx : x ≠ DOCID_NONE := h x (by simp)
    simp only [List.cons_append, NaiveCompressor.decompress, if_pos hx,
      BiasedRingBuffer.push_back_biased, BiasedRingBuffer.push_back,
      List.append_eq]
    rw [ih (acc ++ [add_base x b]) (fun d hd => h d (List.mem_cons_of_mem x hd))]
    simp

/--
C5: for a ring buffer with base zero holding fewer than `BLOCKSIZE / 4`
postings, none of them the all-ones sentinel doc id,
`decompress(force_compress(buffer))` into an empty buffer with base zero
restores exactly the original postings in order: `force_compress` drains
the buffer and pads the block with the `NONE` sentinel, and `decompress`
appends postings until the first sentinel.
-/
theorem force_compress_decompress_roundtrip (l : List Nat)
    (h1 : l.length < BLOCKSIZE / 4) (h2 : ∀ d ∈ l, d < DOCID_NONE) :
    NaiveCompressor.decompress (NaiveCompressor.force_compress ⟨l, 0⟩).1
      ⟨[], 0⟩ = ⟨l, 0⟩ := by
  have hU : ∀ d ∈ l, d < U32 := by
    intro d hd
    have := h2 d hd
    unfold DOCID_NONE at this
    omega
  have hsub : l.map (fun v => sub_base v 0) = l := by
    rw [List.map_congr_left (g := id) ?_, List.map_id]
    intro d hd
    have hdU := hU d hd
    simp only [sub_base, Nat.zero_mod, Nat.sub_zero, id_eq]
    rw [Nat.add_mod_right]
    exact Nat.mod_eq_of_lt hdU
  have hk : BLOCKSIZE / 4 - l.length =
      (BLOCKSIZE / 4 - l.length - 1) + 1 := by
    unfold BLOCKSIZE at h1 ⊢
    omega
  unfold NaiveCompressor.force_compress
  rw [force_pop_slots_spec _ _ _ (Nat.le_of_lt h1), hsub, hk,
    List.replicate_succ,
    decompress_append_sentinel l _ _ _ (fun d hd => Nat.ne_of_lt (h2 d hd))]
  have hadd : l.map (fun d => add_base d 0) = l := by
    rw [List.map_congr_left (g := id) ?_, List.map_id]
    intro d hd
    simp only [add_base, Nat.add_zero, id_eq]
    exact Nat.mod_eq_of_lt (hU d hd)
  simp [hadd]

/-- Witness for `force_compress_decompress_roundtrip` at the concrete
buffer `[3, 5, 9]`. -/
theorem force_compress_decompress_roundtrip_witness :
    NaiveCompressor.decompress (NaiveCompressor.force_compress ⟨[3, 5, 9], 0⟩).1
      ⟨[], 0⟩ = ⟨[3, 5, 9], 0⟩ :=
  force_compress_decompress_roundtrip [3, 5, 9] (by decide) (by decide)

/--
C1 fails on the code: with `A = [0]` and `B = [1..16]` (both strictly
increasing), `add(A); commit; add(B); commit` on a fresh listing decodes
to `[0, 1, ..., 15, 0]` while `add(A ++ B); commit` decodes to
`[0, 1, ..., 16]`.  `unravel_unfull` never truncates `block_biases` (spec
§4.7 step 4), so the block re-shipped during the second commit pairs with
a stale bias entry and decodes to the wrong doc id.
-/
theorem append_after_commit_inequivalence :
    decodedLC (runCommit (runAdd (runCommit (runAdd freshLC [0]))
        [1, 2, 3, 4, 5, 6, 7, 8, 9, 10, 11, 12, 13, 14, 15, 16]))
      = [0, 1, 2, 3, 4, 5, 6, 7, 8, 9, 10, 11, 12, 13, 14, 15, 0]
    ∧ decodedLC (runCommit (runAdd freshLC
        [0, 1, 2, 3, 4, 5, 6, 7, 8, 9, 10, 11, 12, 13, 14, 15, 16]))
      = [0, 1, 2, 3, 4, 5, 6, 7, 8, 9, 10, 11, 12, 13, 14, 15, 16] := by
  decide

/--
C2 fails on the code: `unravel_unfull` truncates neither `block_biases`
nor `size`.  After `add([0]); commit; add([])` the unfull page's single
block is unraveled and its one posting re-buffered, yet `size = 2` (the
posting is counted twice) and `block_biases` still holds the stale entry
`[0]`, while no shipped block exists (`pages` is empty and the buffer
holds the one posting).  Had the block never been shipped, `size` would be
1 and `block_biases` empty.
-/
theorem unravel_skips_truncation :
    (runAdd (runCommit (runAdd freshLC [0])) []).1.size = 2
    ∧ (runAdd (runCommit (runAdd freshLC [0])) []).1.block_biases = [0]
    ∧ (runAdd (runCommit (runAdd freshLC [0])) []).1.pages.full = []
    ∧ (runAdd (runCommit (runAdd freshLC [0])) []).1.pages.unfullDesc = none
    ∧ (runAdd (runCommit (runAdd freshLC [0])) []).1.posting_buffer.elems
        = [0] := by
  decide

/--
C3 fails on the code: the duplicate test in `Listing::add` is guarded by
`!posting_buffer.is_empty()`, so a posting equal to the last shipped
posting is accepted when it arrives just after a block was shipped and
the ring buffer is empty.  Adding `[0..15]` ships one full block and
empties the buffer; a following `add([15])` then buffers the duplicate
and counts it (`size = 17`), and the committed listing decodes with doc id
15 twice.
-/
theorem duplicate_after_ship_not_dropped :
    (runAdd (runAdd freshLC [0, 1, 2, 3, 4, 5, 6, 7, 8, 9, 10, 11, 12, 13,
        14, 15]) [15]).1.size = 17
    ∧ (runAdd (runAdd freshLC [0, 1, 2, 3, 4, 5, 6, 7, 8, 9, 10, 11, 12,
        13, 14, 15]) [15]).1.posting_buffer.elems = [15]
    ∧ decodedLC (runCommit (runAdd (runAdd freshLC [0, 1, 2, 3, 4, 5, 6,
        7, 8, 9, 10, 11, 12, 13, 14, 15]) [15]))
      = [0, 1, 2, 3, 4, 5, 6, 7, 8, 9, 10, 11, 12, 13, 14, 15, 15] := by
  decide

/--
C6 fails on the code: `load_vocabulary` on a byte stream whose second
record's term bytes fail to decode returns `Ok` with the partial
vocabulary (the failing term silently skipped) instead of
`Err(CorruptedIndexFile)`.  The input holds two records
`(id 0, len 1, term byte 5)` and `(id 1, len 1, term byte 200)`; the
decoder accepts bytes below 128 only.
-/
theorem load_vocabulary_swallows_decode_failure :
    BIndex.load_vocabulary BIndex.byteTermDecode [128, 129, 5, 129, 129, 200]
      = Except.ok [(5, 0)]
    ∧ (BIndex.byteTermDecode [200]).1 = none :=
  ⟨rfl, rfl⟩

/--
C9: equality and ordering of `Posting` values are decided by the doc id
alone — `p == q` holds exactly when the doc ids are equal, and `p <= q`
exactly when `p`'s doc id is at most `q`'s, regardless of the position
lists.
-/
theorem posting_compare_by_doc_id (p q : BIdx.Posting) :
    (BIdx.postingEq p q = true ↔ p.doc_id = q.doc_id)
    ∧ (BIdx.postingLe p q = true ↔ p.doc_id ≤ q.doc_id) := by
  constructor
  · simp [BIdx.postingEq]
  · unfold BIdx.postingLe BIdx.postingCmp
    rcases hcmp : compare p.doc_id q.doc_id with _ | _ | _
    · have h := Nat.compare_eq_lt.mp hcmp
      simp
      omega
    · have h := Nat.compare_eq_eq.mp hcmp
      simp
      omega
    · have h := Nat.compare_eq_gt.mp hcmp
      simp
      omega

/--
C10: `Vocabulary::get_or_add` on a hash map gives a previously unseen term
the id `self.len()` (term ids are dense in first-insertion order), and it
is idempotent: a second call with the same term returns the same id and
leaves the map unchanged.
-/
theorem get_or_add_dense_and_idempotent {Term : Type} [DecidableEq Term]
    (m : Vocab.VMap Term) (t : Term) :
    (Vocab.contains_key m t = false → (Vocab.get_or_add m t).2 = m.length)
    ∧ Vocab.get_or_add (Vocab.get_or_add m t).1 t = Vocab.get_or_add m t := by
  cases hl : Vocab.lookup m t with
  | none =>
    have hlk : Vocab.lookup ((t, m.length) :: m) t = some m.length := by
      simp [Vocab.lookup]
    constructor
    · intro _
      simp [Vocab.get_or_add, Vocab.contains_key, hl]
    · simp [Vocab.get_or_add, Vocab.contains_key, hl, hlk]
  | some v =>
    constructor
    · intro h
      simp [Vocab.contains_key, hl] at h
    · simp [Vocab.get_or_add, Vocab.contains_key, hl]

/-- Witness for `get_or_add_dense_and_idempotent`: the empty vocabulary
does not contain term 0, and adding it assigns id 0, the map's size. -/
theorem get_or_add_dense_witness :
    (Vocab.get_or_add ([] : Vocab.VMap Nat) 0).2 =
      ([] : Vocab.VMap Nat).length :=
  (get_or_add_dense_and_idempotent [] 0).1 (by decide)

/-- `ship` never touches the unfull-page descriptor (it pushes full page
ids only). -/
theorem ship_unfull_eq (s : Listing) (c : RamPageCache) (b : Block) :
    (Listing.ship s c b).1.pages.unfullDesc = s.pages.unfullDesc := by
  unfold Listing.ship
  dsimp only
  split <;> split <;> simp [Pages.push]

/-- The compress-and-ship while loop never touches the unfull-page
descriptor. -/
theorem shipWhile_unfull_eq (fuel : Nat) (s : Listing) (c : RamPageCache) :
    (Listing.shipWhile fuel s c).1.pages.unfullDesc = s.pages.unfullDesc := by
  induction fuel generalizing s c with
  | zero => rfl
  | succ fuel ih =>
    unfold Listing.shipWhile
    rcases hc : NaiveCompressor.compress s.posting_buffer with ⟨b?, buf⟩
    cases b? with
    | none => simp
    | some blk =>
      simp only []
      rw [ih]
      exact ship_unfull_eq _ _ _

/-- `compress_and_ship` never touches the unfull-page descriptor. -/
theorem cas_unfull_eq (s : Listing) (c : RamPageCache) (force : Bool) :
    (Listing.compress_and_ship s c force).1.pages.unfullDesc =
      s.pages.unfullDesc := by
  unfold Listing.compress_and_ship
  dsimp only
  split
  · rw [ship_unfull_eq]
    exact shipWhile_unfull_eq _ _ _
  · exact shipWhile_unfull_eq _ _ _

/-- The add loop never touches the unfull-page descriptor. -/
theorem addLoop_unfull_eq (ps : List CorePosting) (i : Nat) (s : Listing)
    (c : RamPageCache) :
    (Listing.addLoop s c ps i).1.pages.unfullDesc = s.pages.unfullDesc := by
  induction ps generalizing s c i with
  | nil => exact cas_unfull_eq _ _ _
  | cons p rest ih =>
    unfold Listing.addLoop
    split
    · exact ih _ _ _
    · dsimp only
      split
      · rw [ih]
        exact cas_unfull_eq _ _ _
      · rw [ih]

/-- `unravel_unfull` leaves no unfull-page descriptor behind: it takes the
descriptor off `pages` and the re-add does not restore it (when none was
present the listing is returned unchanged, descriptor still absent). -/
theorem unravel_unfull_none (s : Listing) (c : RamPageCache) :
    (Listing.unravel_unfull s c).1.pages.unfullDesc = none := by
  unfold Listing.unravel_unfull Pages.take_unfull
  cases hq : s.pages.unfullDesc with
  | none => simpa using hq
  | some u =>
    dsimp only
    rw [addLoop_unfull_eq]

/-- Immediately after `Listing::add` returns, the unfull-page descriptor
is absent. -/
theorem add_unfull_none (s : Listing) (c : RamPageCache)
    (ps : List CorePosting) :
    (Listing.add s c ps).1.pages.unfullDesc = none := by
  unfold Listing.add
  split
  · rcases hu : Listing.unravel_unfull s c with ⟨s1, c1⟩
    dsimp only
    rw [addLoop_unfull_eq]
    have h2 := unravel_unfull_none s c
    rw [hu] at h2
    exact h2
  · next h =>
    rw [addLoop_unfull_eq]
    cases hq : s.pages.unfullDesc with
    | none => rfl
    | some u =>
      exfalso
      apply h
      unfold Pages.unfull
      rw [hq]
      rfl

/-- `Listing::commit` installs an unfull-page descriptor exactly when its
current page is still partially filled after the forced ship; otherwise
the descriptor is whatever it was before. -/
theorem commit_unfull_eq (s : Listing) (c : RamPageCache) :
    (Listing.commit s c).1.pages.unfullDesc =
      match (Listing.compress_and_ship s c true).1.current_page with
      | some pid =>
        some ((Listing.compress_and_ship s c true).2.flush_unfull pid
          (Listing.compress_and_ship s c true).1.block_counter)
      | none => s.pages.unfullDesc := by
  unfold Listing.commit
  rcases hc : Listing.compress_and_ship s c true with ⟨s1, c1⟩
  have hpre : s1.pages.unfullDesc = s.pages.unfullDesc := by
    have h2 := cas_unfull_eq s c true
    rw [hc] at h2
    exact h2
  cases hcp : s1.current_page with
  | none =>
    simp only [hcp]
    exact hpre
  | some pid =>
    simp only [hcp]
    simp [Pages.add_unfull]

/-- `Pages::get` places the full page ids at positions below
`full.length` and the (at most one) unfull page's id directly after them,
and nothing beyond. -/
theorem pages_get_eq (pg : Pages) (i : Nat) :
    pg.get i =
      if i < pg.full.length then pg.full.get? i
      else if i = pg.full.length then (pg.unfull).map UnfullPage.page_id
      else none := by
  unfold Pages.get Pages.len Pages.unfull
  cases pg.unfullDesc with
  | none => split_ifs <;> simp_all
  | some u =>
    split_ifs <;> simp_all
    omega

/--
C7: a listing's pages hold either no unfull-page descriptor or exactly
one, always positioned after all full page ids (the `Pages::get`
characterization); immediately after any `add` the descriptor is absent;
and a `commit` installs one exactly when its current page was partially
filled (otherwise it leaves the descriptor as it was).
-/
theorem unfull_descriptor_lifecycle (s : Listing) (c : RamPageCache)
    (ps : List CorePosting) (pg : Pages) (i : Nat) :
    (Listing.add s c ps).1.pages.unfull = none
    ∧ ((Listing.commit s c).1.pages.unfull =
        match (Listing.compress_and_ship s c true).1.current_page with
        | some pid =>
          some ((Listing.compress_and_ship s c true).2.flush_unfull pid
            (Listing.compress_and_ship s c true).1.block_counter)
        | none => s.pages.unfull)
    ∧ (pg.get i =
        if i < pg.full.length then pg.full.get? i
        else if i = pg.full.length then (pg.unfull).map UnfullPage.page_id
        else none) :=
  ⟨add_unfull_none s c ps, commit_unfull_eq s c, pages_get_eq pg i⟩
/--
C8 fails on the code: `FsStorage::get` reads through `File::try_clone`,
which shares the underlying cursor with the `data` handle, while `store`
writes at that cursor (the file is opened by `new` without append mode)
and records the entry at the separately tracked `current_offset`.  After
`store(0, 7); store(1, 8)`, `get(1)` returns 8 as the claim requires; but
continuing with `get(0)` (which moves the shared cursor to offset 1) and
`store(2, 9)` (which therefore overwrites item 1's bytes while recording
entry offset 2), `get(1)` returns 9 instead of the most recently stored
item for id 1, and `get(2)` panics on `read_exact` past end of file
instead of returning 9.
-/
theorem fs_get_moves_the_write_cursor :
    (Fs.get List.head? fsAfterTwoStores 1).1 = Except.ok (some 8)
    ∧ (Fs.get List.head? fsAfterInterleavedGet 1).1 = Except.ok (some 9)
    ∧ (Fs.get List.head? fsAfterInterleavedGet 2).1 = Except.ok none :=
  ⟨rfl, rfl, rfl⟩

end Perlin
